import Mathlib

/-!
Verification of the script-to-video generator's segmentation/timing engine and
video standardization pipeline, shallowly embedded from the Python source
(`routes/process_script.py`, `utils/video_processing.py`,
`utils/search_helpers.py`).  Durations and rates are modelled as rationals;
Python `int()` truncation is modelled explicitly.
-/

namespace ScriptVideo

/-! ### Constants (process_script.py lines 36-41) -/

def WORDS_PER_MINUTE : ℚ := 120

def MIN_SEGMENT_DURATION : ℚ := 2

def MIN_VIDEO_DURATION : ℚ := 3

def MIN_IMAGE_DURATION : ℚ := 2

/-- Python `int()` applied to a (real-valued) quantity: truncation toward zero. -/
def pyInt (q : ℚ) : ℤ :=
  if 0 ≤ q then ⌊q⌋ else -⌊-q⌋

/-! ### Duration model (`process_text_content_for_videos_fetching`,
process_script.py lines 945-975) -/

/-- `total_duration_in_seconds = (word_count / speaking_rate) * 60` (line 951). -/
def total_duration_in_seconds (word_count speaking_rate : ℚ) : ℚ :=
  word_count / speaking_rate * 60

/-- `content_per_minute = max(1, videos_per_minute)` (line 954). -/
def content_per_minute (videos_per_minute : ℚ) : ℚ :=
  max 1 videos_per_minute

/-- `segment_duration_in_seconds = max(min_dur, 60 / content_per_minute)` (line 958). -/
def segment_duration_in_seconds (min_dur cpm : ℚ) : ℚ :=
  max min_dur (60 / cpm)

/-- `total_segments = max(1, int(total_duration / segment_duration))` (line 961). -/
def total_segments (total_dur seg_dur : ℚ) : ℤ :=
  max 1 (pyInt (total_dur / seg_dur))

/-- `words_per_segment = max(1, int((speaking_rate * segment_duration) / 60))` (line 975). -/
def words_per_segment (speaking_rate seg_dur : ℚ) : ℤ :=
  max 1 (pyInt (speaking_rate * seg_dur / 60))

/-! ### Segmenter (process_script.py lines 981-993) -/

/-- The slicing loop `for i in range(0, len(words), k): words[i:i+k]` for a
step `k ≥ 1`, written with the head element split off so that each chunk is
visibly nonempty. -/
def chunkWords (k : ℕ) : List String → List (List String)
  | [] => []
  | w :: ws => (w :: ws.take (k - 1)) :: chunkWords k (ws.drop (k - 1))
  termination_by ws => ws.length
  decreasing_by simp [List.length_drop]; omega

/-- Per-segment duration, recomputed from the segment's own word count and then
floored: `max(min_dur, (segment_word_count / speaking_rate) * 60)` (lines 989-992). -/
def per_segment_duration (min_dur speaking_rate : ℚ) (segment_word_count : ℕ) : ℚ :=
  max min_dur ((segment_word_count : ℚ) / speaking_rate * 60)

/-- The list of per-chunk durations built by the segmentation loop. -/
def segment_durations (min_dur speaking_rate : ℚ) (k : ℕ) (words : List String) : List ℚ :=
  (chunkWords k words).map (fun c => per_segment_duration min_dur speaking_rate c.length)

/-! ### Media normalizer: image to video (video_processing.py lines 180-300) -/

/-- The clamp at the top of `image_to_video` (lines 189-193): a requested
duration below 1 s is silently raised to the 1 s minimum. -/
def image_to_video_effective_duration (duration : ℚ) : ℚ :=
  if duration < 1 then 1 else duration

/-- The concat list written by the recovery path (lines 252-261): the same
image file `ceil(duration)` times, each with a `duration 1.0` directive, plus
one final entry without a duration directive. -/
def recovery_concat_list (duration : ℚ) : List (Option ℚ) :=
  List.replicate (Int.toNat ⌈duration⌉) (some 1) ++ [none]

/-- What `image_to_video` does after measuring the produced clip. -/
inductive ImageVideoOutcome where
  | ok : ImageVideoOutcome
  | warnOnly : ImageVideoOutcome
  | recovery (entries : List (Option ℚ)) (trimTo : ℚ) : ImageVideoOutcome
  deriving DecidableEq

/-- The duration-mismatch handling of `image_to_video` (lines 236-277):
a deviation above 0.5 s triggers the recovery encode only when the shortfall is
severe (actual < 80% of target and actual < 2 s); otherwise it only warns. -/
def image_to_video_check (duration actual : ℚ) : ImageVideoOutcome :=
  if 1 / 2 < |actual - duration| then
    if actual < duration * (4 / 5) ∧ actual < 2 then
      .recovery (recovery_concat_list duration) duration
    else .warnOnly
  else .ok

/-! ### Media normalizer: video standardization (video_processing.py lines 302-533) -/

/-- The `while remaining > 1.0` loop of the atempo chain construction
(lines 480-485), with explicit fuel standing in for the loop condition. -/
def tempoChainAux : ℕ → ℚ → List ℚ
  | 0, _ => []
  | fuel + 1, remaining =>
    if 1 < remaining then
      min 2 remaining :: tempoChainAux fuel (remaining / min 2 remaining)
    else []

/-- The tempo chain built for a speed factor; the fuel bound is large enough
for the loop to run to completion (see `tempoChainAux_spec`). -/
def tempoChain (speed_factor : ℚ) : List ℚ :=
  tempoChainAux (Int.toNat ⌈speed_factor⌉ + 1) speed_factor

/-- The atempo factors placed on the ffmpeg command line in speed mode
(lines 475-487): a single `atempo=min(2.0, speed_factor)` filter, replaced by
the chained filters only when `speed_factor > 2.0`. -/
def audioTempoFilters (speed_factor : ℚ) : List ℚ :=
  if 2 < speed_factor then tempoChain speed_factor else [min 2 speed_factor]

/-- The action chosen by `standardize_video` for one input clip. -/
inductive StdPlan where
  | cutPlan (trimTo : ℚ) : StdPlan
  | imageFallback (target : ℚ) : StdPlan
  | loopPlan (loopCount : ℕ) (trimTo : ℚ) : StdPlan
  | speedPlan (speedFactor ptsFactor : ℚ) (audioFilters : Option (List ℚ)) : StdPlan
  deriving DecidableEq

/-- The mode dispatch of `standardize_video` (lines 329-490): cut only when the
source exceeds the target, loop only when it falls short (with the sub-0.5 s
frame-extraction special case and `loop_count = ceil(target/duration)`),
everything else falling through to speed adjustment with
`speed_factor = duration / target_duration` and a `setpts` rescale of
`1/speed_factor`. -/
def standardize_video_plan (mode : String) (duration target_duration : ℚ)
    (has_audio : Bool) : StdPlan :=
  if mode = "cut" ∧ target_duration < duration then
    .cutPlan target_duration
  else if mode = "loop" ∧ duration < target_duration then
    if duration < 1 / 2 then
      .imageFallback target_duration
    else
      .loopPlan (Int.toNat ⌈target_duration / duration⌉) target_duration
  else
    .speedPlan (duration / target_duration) (1 / (duration / target_duration))
      (if has_audio then some (audioTempoFilters (duration / target_duration)) else none)

/-! ### Timeline concatenator (video_processing.py lines 590-682) -/

/-- What the validation pass can observe about one clip path: whether the file
exists on disk, and the probed duration (`none` models a probe failure). -/
structure Clip where
  onDisk : Bool
  probe : Option ℚ
  deriving DecidableEq

/-- The per-clip validation of `concatenate_videos` (lines 605-623): the file
must exist, the probe must succeed, and the probed duration must be positive. -/
def clip_is_valid (c : Clip) : Bool :=
  c.onDisk && (match c.probe with
    | some d => decide (0 < d)
    | none => false)

/-- `concatenate_videos` (lines 590-628): error on an empty input list, filter
out invalid clips keeping order, error when none survive, otherwise build the
playlist from the survivors together with their summed durations. -/
def concatenate_videos (video_list : List Clip) : Except String (List Clip × ℚ) :=
  if video_list = [] then
    .error "No videos to concatenate"
  else
    let valid_videos := video_list.filter clip_is_valid
    if valid_videos = [] then
      .error "No valid videos to concatenate after verification"
    else
      .ok (valid_videos, (valid_videos.map (fun c => c.probe.getD 0)).sum)

/-! ### Media resolver URL dedup (search_helpers.py lines 26-27, 105-144, 468-472) -/

/-- The provider result loop shared by every search function: for each
candidate URL, skip it when it is already in the used set, otherwise mark it
used and collect it, stopping once `per_page` results are gathered.  The used
set is modelled as a list; `acc` accumulates results in reverse. -/
def dedup_search_aux (per_page : ℕ) :
    List String → List String → List String → List String × List String
  | used, acc, [] => (acc.reverse, used)
  | used, acc, url :: rest =>
    if url ∈ used then
      dedup_search_aux per_page used acc rest
    else if per_page ≤ acc.length + 1 then
      ((url :: acc).reverse, url :: used)
    else
      dedup_search_aux per_page (url :: used) (url :: acc) rest

/-- One provider search over the candidate URLs of a provider response,
threading the process-wide used-URL set. -/
def search_with_dedup (per_page : ℕ) (used candidates : List String) :
    List String × List String :=
  dedup_search_aux per_page used [] candidates

/-- `clear_url_cache` (lines 468-472): resets the process-wide set. -/
def clear_url_cache (_used : List String) : List String := []

/-- A sequence of provider searches within one process lifetime, each
receiving the used-URL set left by the previous one. -/
def run_searches (per_page : ℕ) :
    List String → List (List String) → List (List String) × List String
  | used, [] => ([], used)
  | used, cand :: rest =>
    ((search_with_dedup per_page used cand).1 ::
        (run_searches per_page (search_with_dedup per_page used cand).2 rest).1,
      (run_searches per_page (search_with_dedup per_page used cand).2 rest).2)

/-! ### Job-store counters per segment (process_script.py lines 809-911 and
1792-2000) -/

/-- How one segment's media acquisition can end in
`process_text_content_for_images_fetching`. -/
inductive SegmentOutcome where
  | success : SegmentOutcome
  | noResults : SegmentOutcome
  | uploadFailed : SegmentOutcome
  | downloadFailed : SegmentOutcome
  | searchFailed : SegmentOutcome
  deriving DecidableEq

/-- The two shared job-store counters. -/
structure Counters where
  processed : ℕ
  mediaReady : ℕ
  deriving DecidableEq

/-- The content section emitted for a segment: its index and how many media
items its lists carry. -/
structure EmittedSection where
  index : ℕ
  mediaCount : ℕ
  deriving DecidableEq

/-- One iteration of the images-fetching loop (lines 809-911): only the fully
successful path (search hit, download, upload, content record) increments
`processed_count`, writes it back, and increments the video-segments-completed
counter; every other path leaves both counters alone.  The content section is
built at lines 900-911 only when the loop body reaches them: segments with no
search results and segments whose search raised still emit an empty section,
but the `continue` statements at lines 857 and 891 make upload and download
failures skip section emission entirely. -/
def images_fetch_segment_step (c : Counters) (idx : ℕ) (o : SegmentOutcome) :
    Counters × Option EmittedSection :=
  match o with
  | .success => (⟨c.processed + 1, c.mediaReady + 1⟩, some ⟨idx, 1⟩)
  | .noResults => (c, some ⟨idx, 0⟩)
  | .searchFailed => (c, some ⟨idx, 0⟩)
  | .uploadFailed => (c, none)
  | .downloadFailed => (c, none)

/-- The images-fetching loop over the per-segment outcomes; a step that emits
no section contributes nothing to the result list. -/
def images_fetch_run (c : Counters) (idx : ℕ) :
    List SegmentOutcome → Counters × List EmittedSection
  | [] => (c, [])
  | o :: os =>
    ((images_fetch_run (images_fetch_segment_step c idx o).1 (idx + 1) os).1,
      match (images_fetch_segment_step c idx o).2 with
      | some s =>
        s :: (images_fetch_run (images_fetch_segment_step c idx o).1 (idx + 1) os).2
      | none => (images_fetch_run (images_fetch_segment_step c idx o).1 (idx + 1) os).2)

/-- How one segment of `process_mixed_content` can end: media found, media
missing (provider search failed or returned nothing, swallowed by the inner
try), or an exception escaping to the per-segment handler. -/
inductive MixedOutcome where
  | found : MixedOutcome
  | missing : MixedOutcome
  | escape : MixedOutcome
  deriving DecidableEq

/-- One iteration of the mixed-content loop (lines 1792-2000): when the body
completes, `update_processed_segment_count(job_id, idx + 1)` runs whether or
not media was found; only an escaping exception skips it, emitting a blank
section instead. -/
def mixed_segment_step (idx prev : ℕ) (o : MixedOutcome) : ℕ × EmittedSection :=
  match o with
  | .found => (idx + 1, ⟨idx, 1⟩)
  | .missing => (idx + 1, ⟨idx, 0⟩)
  | .escape => (prev, ⟨idx, 0⟩)

/-- The mixed-content loop over the per-segment outcomes, threading the stored
processed-segment counter. -/
def mixed_run (prev idx : ℕ) : List MixedOutcome → ℕ × List EmittedSection
  | [] => (prev, [])
  | o :: os =>
    ((mixed_run (mixed_segment_step idx prev o).1 (idx + 1) os).1,
      (mixed_segment_step idx prev o).2 ::
        (mixed_run (mixed_segment_step idx prev o).1 (idx + 1) os).2)

/-! ### Theorems -/

theorem pyInt_of_nonneg {q : ℚ} (h : 0 ≤ q) : pyInt q = ⌊q⌋ := by
  simp [pyInt, h]

/-- Claim C1: for wordCount ≥ 0, speakingRate > 0 and contentPerMinute ≥ 1, the
duration model computes totalDurationSeconds = wordCount/speakingRate*60,
segmentDurationSeconds = max(minimumSegmentDuration, 60/contentPerMinute), and
segmentCount = max(1, floor(totalDurationSeconds/segmentDurationSeconds)) ≥ 1;
in particular 120 words at 120 wpm with 10 videos per minute give segment
duration 6 s and segment count 10. -/
theorem duration_model_correct :
    (∀ word_count speaking_rate cpm min_dur : ℚ,
      0 ≤ word_count → 0 < speaking_rate → 1 ≤ cpm →
      total_duration_in_seconds word_count speaking_rate = word_count / speaking_rate * 60 ∧
      segment_duration_in_seconds min_dur cpm = max min_dur (60 / cpm) ∧
      total_segments (total_duration_in_seconds word_count speaking_rate)
          (segment_duration_in_seconds min_dur cpm) =
        max 1 ⌊total_duration_in_seconds word_count speaking_rate /
          segment_duration_in_seconds min_dur cpm⌋ ∧
      1 ≤ total_segments (total_duration_in_seconds word_count speaking_rate)
          (segment_duration_in_seconds min_dur cpm)) ∧
    segment_duration_in_seconds MIN_VIDEO_DURATION (content_per_minute 10) = 6 ∧
    total_segments (total_duration_in_seconds 120 120)
      (segment_duration_in_seconds MIN_VIDEO_DURATION (content_per_minute 10)) = 10 := by
  refine ⟨fun word_count speaking_rate cpm min_dur hw hr hc => ?_, by norm_num
    [segment_duration_in_seconds, content_per_minute, MIN_VIDEO_DURATION], ?_⟩
  · have hcpm : (0 : ℚ) < cpm := lt_of_lt_of_le one_pos hc
    have hseg : 0 < segment_duration_in_seconds min_dur cpm := by
      have : (0 : ℚ) < 60 / cpm := by positivity
      exact lt_of_lt_of_le this (le_max_right _ _)
    have htot : 0 ≤ total_duration_in_seconds word_count speaking_rate :=
      mul_nonneg (div_nonneg hw (le_of_lt hr)) (by norm_num)
    have hq : (0 : ℚ) ≤ total_duration_in_seconds word_count speaking_rate /
        segment_duration_in_seconds min_dur cpm := div_nonneg htot (le_of_lt hseg)
    refine ⟨rfl, rfl, ?_, le_max_left _ _⟩
    simp [total_segments, pyInt_of_nonneg hq]
  · show max 1 (pyInt ((120 / 120 * 60 : ℚ) / max 3 (60 / max 1 10))) = 10
    norm_num [pyInt]

/-- Witness for `duration_model_correct` at wordCount 120, speakingRate 120,
contentPerMinute 10. -/
theorem duration_model_correct_witness :
    ((0 : ℚ) ≤ 120 ∧ (0 : ℚ) < 120 ∧ (1 : ℚ) ≤ 10) ∧
    1 ≤ total_segments (total_duration_in_seconds 120 120)
      (segment_duration_in_seconds MIN_VIDEO_DURATION 10) :=
  ⟨⟨by norm_num, by norm_num, by norm_num⟩,
    (duration_model_correct.1 120 120 10 MIN_VIDEO_DURATION (by norm_num) (by norm_num)
      (by norm_num)).2.2.2⟩

/-- Claim C2: every duration produced by the segmenter equals
max(minimumSegmentDuration, segmentActualWordCount/speakingRate*60), recomputed
from that segment's actual word count, and hence is at least the active mode's
minimum floor. -/
theorem segment_durations_floor (min_dur speaking_rate : ℚ) (k : ℕ) (words : List String) :
    ∀ d ∈ segment_durations min_dur speaking_rate k words,
      (∃ c ∈ chunkWords k words,
        d = max min_dur ((c.length : ℚ) / speaking_rate * 60)) ∧ min_dur ≤ d := by
  intro d hd
  rcases List.mem_map.mp hd with ⟨c, hc, hcd⟩
  exact ⟨⟨c, hc, hcd.symm⟩, hcd ▸ le_max_left _ _⟩

/-- Witness for `segment_durations_floor`: a 5-word script at 120 wpm in chunks
of 2 words; the trailing 1-word chunk still gets the 3 s floor. -/
theorem segment_durations_floor_witness :
    (3 : ℚ) ∈ segment_durations 3 120 2 ["a", "b", "c", "d", "e"] ∧
    (3 : ℚ) ≤ 3 := by
  have h : (3 : ℚ) ∈ segment_durations 3 120 2 ["a", "b", "c", "d", "e"] := by
    simp [segment_durations, chunkWords, per_segment_duration]
    norm_num
  exact ⟨h, (segment_durations_floor 3 120 2 ["a", "b", "c", "d", "e"] 3 h).2⟩

/-- Claim C4: a measured deviation above 0.5 s with actual < 80% of target and
actual < 2 s triggers the recovery encode, which concatenates the single image
ceil(target) times at 1-second increments and trims to the target; a deviation
not meeting all three conditions only logs a warning. -/
theorem image_to_video_recovery_correct (duration actual : ℚ) :
    (1 / 2 < |actual - duration| → actual < duration * (4 / 5) → actual < 2 →
      image_to_video_check duration actual =
        .recovery (List.replicate (Int.toNat ⌈duration⌉) (some 1) ++ [none]) duration) ∧
    (1 / 2 < |actual - duration| → ¬(actual < duration * (4 / 5) ∧ actual < 2) →
      image_to_video_check duration actual = .warnOnly) ∧
    (¬(1 / 2 < |actual - duration|) →
      image_to_video_check duration actual = .ok) := by
  unfold image_to_video_check
  refine ⟨fun h1 h2 h3 => ?_, fun h1 h2 => ?_, fun h1 => ?_⟩
  · rw [if_pos h1, if_pos ⟨h2, h3⟩]; rfl
  · rw [if_pos h1, if_neg h2]
  · rw [if_neg h1]

/-- Witness for `image_to_video_recovery_correct`: scenario C, target 2 s and
measured 1 s, recovery triggered with two 1-second entries. -/
theorem image_to_video_recovery_correct_witness :
    ((1 : ℚ) / 2 < |(1 : ℚ) - 2| ∧ (1 : ℚ) < 2 * (4 / 5) ∧ (1 : ℚ) < 2) ∧
    image_to_video_check 2 1 = .recovery [some 1, some 1, none] 2 := by
  refine ⟨⟨by norm_num, by norm_num, by norm_num⟩, ?_⟩
  have h := (image_to_video_recovery_correct 2 1).1 (by norm_num) (by norm_num) (by norm_num)
  simpa using h

/-- Claim C10: a requested image-to-video duration below 1 s is silently
clamped up to 1 s, so the encode targets 1 s, strictly above the caller's
requested target. -/
theorem image_duration_clamp (duration : ℚ) :
    (duration < 1 → image_to_video_effective_duration duration = 1 ∧
      duration < image_to_video_effective_duration duration) ∧
    (1 ≤ duration → image_to_video_effective_duration duration = duration) := by
  constructor
  · intro h
    simp [image_to_video_effective_duration, h]
  · intro h
    simp [image_to_video_effective_duration, not_lt.mpr h]

/-- Witness for `image_duration_clamp` at requested duration 0.5 s. -/
theorem image_duration_clamp_witness :
    ((1 : ℚ) / 2 < 1) ∧ image_to_video_effective_duration (1 / 2) = 1 :=
  ⟨by norm_num, ((image_duration_clamp (1 / 2)).1 (by norm_num)).1⟩

theorem tempoChainAux_spec :
    ∀ (n : ℕ) (r : ℚ), 1 < r → r ≤ 2 ^ n →
      (tempoChainAux (n + 1) r).prod = r ∧
      ∀ t ∈ tempoChainAux (n + 1) r, 1 < t ∧ t ≤ 2 := by
  intro n
  induction n with
  | zero =>
    intro r h1 h2
    exfalso
    rw [pow_zero] at h2
    linarith
  | succ n ih =>
    intro r h1 h2
    have hr0 : r ≠ 0 := ne_of_gt (by linarith)
    by_cases hc : r ≤ 2
    · have hmin : min 2 r = r := min_eq_right hc
      have hstep : tempoChainAux (n + 1 + 1) r = r :: tempoChainAux (n + 1) (r / r) := by
        simp [tempoChainAux, h1, hmin]
      rw [div_self hr0] at hstep
      have hone : tempoChainAux (n + 1) 1 = [] := by
        simp [tempoChainAux]
      rw [hstep, hone]
      refine ⟨by simp, ?_⟩
      intro t ht
      rw [List.mem_singleton] at ht
      exact ht ▸ ⟨h1, hc⟩
    · push_neg at hc
      have hmin : min 2 r = 2 := min_eq_left (le_of_lt hc)
      have hstep : tempoChainAux (n + 1 + 1) r = 2 :: tempoChainAux (n + 1) (r / 2) := by
        simp [tempoChainAux, h1, hmin]
      have h1' : (1 : ℚ) < r / 2 := by linarith
      have h2' : r / 2 ≤ 2 ^ n := by
        have hp : (2 : ℚ) ^ (n + 1) = 2 * 2 ^ n := by ring
        rw [hp] at h2
        linarith
      obtain ⟨hp, hm⟩ := ih (r / 2) h1' h2'
      rw [hstep]
      constructor
      · rw [List.prod_cons, hp]
        field_simp
      · intro t ht
        rcases List.mem_cons.mp ht with h | h
        · subst h
          exact ⟨one_lt_two, le_refl 2⟩
        · exact hm t h

theorem le_two_pow_ceil (r : ℚ) (h : 0 ≤ r) : r ≤ 2 ^ Int.toNat ⌈r⌉ := by
  have h2 : (0 : ℤ) ≤ ⌈r⌉ := Int.ceil_nonneg h
  have h4 : (Int.toNat ⌈r⌉ : ℚ) ≤ 2 ^ Int.toNat ⌈r⌉ := by
    exact_mod_cast (Nat.lt_two_pow (Int.toNat ⌈r⌉)).le
  calc r ≤ (⌈r⌉ : ℚ) := Int.le_ceil r
    _ = (Int.toNat ⌈r⌉ : ℚ) := by exact_mod_cast (Int.toNat_of_nonneg h2).symm
    _ ≤ 2 ^ Int.toNat ⌈r⌉ := h4

/-- Claim C5 (amended): the audio tempo filters are each bounded above by 2.0;
for speedFactor > 2.0 the chained factors each lie in (1, 2] and multiply to
exactly speedFactor; but a speedFactor below 0.5 is NOT chained — a single
atempo equal to speedFactor itself, below the 0.5 lower bound, is emitted. -/
theorem audio_tempo_chain_correct (speed_factor : ℚ) :
    (2 < speed_factor →
      (audioTempoFilters speed_factor).prod = speed_factor ∧
      ∀ t ∈ audioTempoFilters speed_factor, 1 < t ∧ t ≤ 2) ∧
    (speed_factor < 1 / 2 → audioTempoFilters speed_factor = [speed_factor]) ∧
    (∀ duration target_duration : ℚ, ∀ has_audio : Bool,
      standardize_video_plan "speed" duration target_duration has_audio =
        .speedPlan (duration / target_duration) (1 / (duration / target_duration))
          (if has_audio then some (audioTempoFilters (duration / target_duration))
           else none)) := by
  refine ⟨?_, ?_, ?_⟩
  · intro h
    have h1 : (1 : ℚ) < speed_factor := by linarith
    have h2 : speed_factor ≤ 2 ^ Int.toNat ⌈speed_factor⌉ :=
      le_two_pow_ceil speed_factor (by linarith)
    have hfilters : audioTempoFilters speed_factor =
        tempoChainAux (Int.toNat ⌈speed_factor⌉ + 1) speed_factor := by
      simp [audioTempoFilters, h, tempoChain]
    rw [hfilters]
    exact tempoChainAux_spec (Int.toNat ⌈speed_factor⌉) speed_factor h1 h2
  · intro h
    have hn : ¬(2 : ℚ) < speed_factor := by linarith
    have hmin : min 2 speed_factor = speed_factor := min_eq_right (by linarith)
    rw [audioTempoFilters, if_neg hn, hmin]
  · intro duration target_duration has_audio
    have h1 : ¬(("speed" : String) = "cut" ∧ target_duration < duration) :=
      fun h => by exact absurd h.1 (by decide)
    have h2 : ¬(("speed" : String) = "loop" ∧ duration < target_duration) :=
      fun h => by exact absurd h.1 (by decide)
    rw [standardize_video_plan, if_neg h1, if_neg h2]

/-- Witness for `audio_tempo_chain_correct` at speedFactor 5: the chain
multiplies back to 5. -/
theorem audio_tempo_chain_correct_witness :
    ((2 : ℚ) < 5) ∧ (audioTempoFilters 5).prod = 5 :=
  ⟨by norm_num, ((audio_tempo_chain_correct 5).1 (by norm_num)).1⟩

/-- Counterexample to claim C5 as stated: at speedFactor 1/4 (outside
[0.5, 2.0]) no chaining happens and the single emitted tempo factor 1/4 lies
below the 0.5 bound. -/
theorem audio_tempo_counterexample :
    audioTempoFilters (1 / 4) = [1 / 4] ∧
    ¬(∀ t ∈ audioTempoFilters (1 / 4), 1 / 2 ≤ t ∧ t ≤ 2) := by
  have h : audioTempoFilters (1 / 4) = [1 / 4] := by
    have hn : ¬(2 : ℚ) < 1 / 4 := by norm_num
    have hmin : min (2 : ℚ) (1 / 4) = 1 / 4 := min_eq_right (by norm_num)
    rw [audioTempoFilters, if_neg hn, hmin]
  refine ⟨h, fun hall => ?_⟩
  have := (hall (1 / 4) (by rw [h]; exact List.mem_singleton.mpr rfl)).1
  linarith

/-- Claim C3: loop-mode normalization with 0.5 s ≤ source < target repeats the
source ceil(target/source) times and trims to the target (a 1.2 s source and a
5 s target give 5 repetitions); a source below 0.5 s goes through frame
extraction and the image-to-video path instead. -/
theorem loop_mode_correct :
    (∀ duration target_duration : ℚ, ∀ has_audio : Bool,
      1 / 2 ≤ duration → duration < target_duration →
      standardize_video_plan "loop" duration target_duration has_audio =
        .loopPlan (Int.toNat ⌈target_duration / duration⌉) target_duration) ∧
    (∀ duration target_duration : ℚ, ∀ has_audio : Bool,
      duration < 1 / 2 → duration < target_duration →
      standardize_video_plan "loop" duration target_duration has_audio =
        .imageFallback target_duration) ∧
    standardize_video_plan "loop" (6 / 5) 5 false = .loopPlan 5 5 := by
  refine ⟨?_, ?_, ?_⟩
  · intro duration target_duration has_audio hge hlt
    have h1 : ¬(("loop" : String) = "cut" ∧ target_duration < duration) :=
      fun h => by exact absurd h.1 (by decide)
    rw [standardize_video_plan, if_neg h1, if_pos ⟨rfl, hlt⟩, if_neg (not_lt.mpr hge)]
  · intro duration target_duration has_audio hsub hlt
    have h1 : ¬(("loop" : String) = "cut" ∧ target_duration < duration) :=
      fun h => by exact absurd h.1 (by decide)
    rw [standardize_video_plan, if_neg h1, if_pos ⟨rfl, hlt⟩, if_pos hsub]
  · have h1 : ¬(("loop" : String) = "cut" ∧ (5 : ℚ) < 6 / 5) :=
      fun h => by exact absurd h.1 (by decide)
    rw [standardize_video_plan, if_neg h1, if_pos ⟨rfl, by norm_num⟩, if_neg (by norm_num)]
    have hceil : ⌈(5 : ℚ) / (6 / 5)⌉ = 5 := by
      rw [show (5 : ℚ) / (6 / 5) = 25 / 6 by norm_num]
      rw [Int.ceil_eq_iff]
      norm_num
    rw [hceil]
    rfl

/-- Witness for `loop_mode_correct`: scenario B, a 1.2 s source looped to a
5 s target. -/
theorem loop_mode_correct_witness :
    ((1 : ℚ) / 2 ≤ 6 / 5 ∧ (6 / 5 : ℚ) < 5) ∧
    standardize_video_plan "loop" (6 / 5) 5 false =
      .loopPlan (Int.toNat ⌈(5 : ℚ) / (6 / 5)⌉) 5 :=
  ⟨⟨by norm_num, by norm_num⟩, loop_mode_correct.1 (6 / 5) 5 false (by norm_num) (by norm_num)⟩

/-- Claim C9: when mode is "cut" but the source is not longer than the target,
or mode is "loop" but the source is not shorter, `standardize_video` silently
falls through to speed adjustment with speedFactor = source/target, giving a
factor below 1 (a slow-down) whenever the source is strictly shorter; even a
source exactly matching the target is re-encoded through the speed path at
factor 1 rather than copied unchanged or rejected. -/
theorem mode_fallthrough_speed (duration target_duration : ℚ) (has_audio : Bool) :
    (duration ≤ target_duration →
      standardize_video_plan "cut" duration target_duration has_audio =
        .speedPlan (duration / target_duration) (1 / (duration / target_duration))
          (if has_audio then some (audioTempoFilters (duration / target_duration))
           else none)) ∧
    (target_duration ≤ duration →
      standardize_video_plan "loop" duration target_duration has_audio =
        .speedPlan (duration / target_duration) (1 / (duration / target_duration))
          (if has_audio then some (audioTempoFilters (duration / target_duration))
           else none)) ∧
    (0 < target_duration → duration < target_duration →
      duration / target_duration < 1) ∧
    (duration ≠ 0 →
      standardize_video_plan "cut" duration duration has_audio =
        .speedPlan 1 1 (if has_audio then some [1] else none)) := by
  refine ⟨?_, ?_, ?_, ?_⟩
  · intro hle
    have h1 : ¬(("cut" : String) = "cut" ∧ target_duration < duration) :=
      fun h => absurd h.2 (not_lt.mpr hle)
    have h2 : ¬(("cut" : String) = "loop" ∧ duration < target_duration) :=
      fun h => by exact absurd h.1 (by decide)
    rw [standardize_video_plan, if_neg h1, if_neg h2]
  · intro hle
    have h1 : ¬(("loop" : String) = "cut" ∧ target_duration < duration) :=
      fun h => by exact absurd h.1 (by decide)
    have h2 : ¬(("loop" : String) = "loop" ∧ duration < target_duration) :=
      fun h => absurd h.2 (not_lt.mpr hle)
    rw [standardize_video_plan, if_neg h1, if_neg h2]
  · intro hpos hlt
    exact (div_lt_one hpos).mpr hlt
  · intro h0
    have h1 : ¬(("cut" : String) = "cut" ∧ duration < duration) :=
      fun h => absurd h.2 (lt_irrefl _)
    have h2 : ¬(("cut" : String) = "loop" ∧ duration < duration) :=
      fun h => by exact absurd h.1 (by decide)
    rw [standardize_video_plan, if_neg h1, if_neg h2, div_self h0]
    have hf : audioTempoFilters 1 = [1] := by
      rw [audioTempoFilters, if_neg (by norm_num), min_eq_right (by norm_num)]
    rw [hf]
    norm_num

/-- Witness for `mode_fallthrough_speed`: cut mode with a 2 s source and a 4 s
target silently becomes a 0.5x slow-down, and cut mode with a 3 s source and a
3 s target is re-encoded at factor 1. -/
theorem mode_fallthrough_speed_witness :
    ((2 : ℚ) ≤ 4 ∧ (0 : ℚ) < 4 ∧ (2 : ℚ) < 4 ∧ (3 : ℚ) ≠ 0) ∧
    standardize_video_plan "cut" 2 4 false =
      .speedPlan (2 / 4) (1 / (2 / 4)) none ∧
    (2 : ℚ) / 4 < 1 ∧
    standardize_video_plan "cut" 3 3 false = .speedPlan 1 1 none := by
  refine ⟨⟨by norm_num, by norm_num, by norm_num, by norm_num⟩, ?_, ?_, ?_⟩
  · have h := (mode_fallthrough_speed 2 4 false).1 (by norm_num)
    simpa using h
  · exact (mode_fallthrough_speed 2 4 false).2.2.1 (by norm_num) (by norm_num)
  · have h := (mode_fallthrough_speed 3 3 false).2.2.2 (by norm_num)
    simpa using h

/-- Claim C6: concatenation discards entries that do not exist on disk or whose
probed duration is not positive, preserves the order of the survivors, and
fails with a descriptive error (producing no output) on an empty input list or
when zero valid clips remain. -/
theorem concatenate_videos_correct :
    concatenate_videos [] = .error "No videos to concatenate" ∧
    (∀ video_list : List Clip, video_list ≠ [] →
      video_list.filter clip_is_valid = [] →
      concatenate_videos video_list =
        .error "No valid videos to concatenate after verification") ∧
    (∀ (video_list valid : List Clip) (total : ℚ),
      concatenate_videos video_list = .ok (valid, total) →
      valid = video_list.filter clip_is_valid ∧
      List.Sublist valid video_list ∧
      (∀ c ∈ valid, clip_is_valid c = true) ∧
      (∀ c ∈ video_list, clip_is_valid c = true → c ∈ valid)) := by
  refine ⟨rfl, ?_, ?_⟩
  · intro video_list hne hempty
    rw [concatenate_videos, if_neg hne]
    simp [hempty]
  · intro video_list valid total hok
    rw [concatenate_videos] at hok
    by_cases h1 : video_list = []
    · rw [if_pos h1] at hok
      exact absurd hok (by simp)
    · rw [if_neg h1] at hok
      by_cases h2 : video_list.filter clip_is_valid = []
      · simp only [h2, if_pos] at hok
        exact absurd hok (by simp)
      · simp only [if_neg h2, Except.ok.injEq, Prod.mk.injEq] at hok
        obtain ⟨hv, -⟩ := hok
        subst hv
        refine ⟨rfl, List.filter_sublist _, ?_, ?_⟩
        · intro c hc
          exact (List.mem_filter.mp hc).2
        · intro c hc hvalid
          exact List.mem_filter.mpr ⟨hc, hvalid⟩

/-- Witness for `concatenate_videos_correct`: one missing clip, one
zero-duration clip and one valid clip; only the valid clip survives, in place. -/
theorem concatenate_videos_correct_witness :
    concatenate_videos [⟨false, some 3⟩, ⟨true, some 0⟩, ⟨true, some 2⟩] =
      .ok ([⟨true, some 2⟩], 2) ∧
    List.Sublist [(⟨true, some 2⟩ : Clip)]
      [⟨false, some 3⟩, ⟨true, some 0⟩, ⟨true, some 2⟩] := by
  have hfilter : List.filter clip_is_valid
      [⟨false, some 3⟩, ⟨true, some 0⟩, ⟨true, some 2⟩] = [(⟨true, some 2⟩ : Clip)] := by
    decide
  have hok : concatenate_videos [⟨false, some 3⟩, ⟨true, some 0⟩, ⟨true, some 2⟩] =
      .ok ([⟨true, some 2⟩], 2) := by
    rw [concatenate_videos, if_neg (by decide)]
    simp only [hfilter]
    rw [if_neg (by decide)]
    norm_num
  exact ⟨hok, (concatenate_videos_correct.2.2 _ _ _ hok).2.1⟩

theorem dedup_search_aux_fresh (per_page : ℕ) :
    ∀ (cands used acc : List String),
      ∀ u ∈ (dedup_search_aux per_page used acc cands).1, u ∈ acc ∨ u ∉ used := by
  intro cands
  induction cands with
  | nil =>
    intro used acc u hu
    simp only [dedup_search_aux, List.mem_reverse] at hu
    exact Or.inl hu
  | cons url rest ih =>
    intro used acc u hu
    rw [dedup_search_aux] at hu
    by_cases h1 : url ∈ used
    · rw [if_pos h1] at hu
      exact ih used acc u hu
    · rw [if_neg h1] at hu
      by_cases h2 : per_page ≤ acc.length + 1
      · rw [if_pos h2] at hu
        simp only [List.mem_reverse, List.mem_cons] at hu
        rcases hu with h | h
        · exact Or.inr (h ▸ h1)
        · exact Or.inl h
      · rw [if_neg h2] at hu
        rcases ih (url :: used) (url :: acc) u hu with h | h
        · rcases List.mem_cons.mp h with h' | h'
          · exact Or.inr (h' ▸ h1)
          · exact Or.inl h'
        · exact Or.inr (fun hc => h (List.mem_cons_of_mem url hc))

theorem dedup_search_aux_mono (per_page : ℕ) :
    ∀ (cands used acc : List String),
      ∀ u ∈ used, u ∈ (dedup_search_aux per_page used acc cands).2 := by
  intro cands
  induction cands with
  | nil =>
    intro used acc u hu
    simpa [dedup_search_aux] using hu
  | cons url rest ih =>
    intro used acc u hu
    rw [dedup_search_aux]
    by_cases h1 : url ∈ used
    · rw [if_pos h1]
      exact ih used acc u hu
    · rw [if_neg h1]
      by_cases h2 : per_page ≤ acc.length + 1
      · rw [if_pos h2]
        exact List.mem_cons_of_mem url hu
      · rw [if_neg h2]
        exact ih (url :: used) (url :: acc) u (List.mem_cons_of_mem url hu)

theorem dedup_search_aux_recorded (per_page : ℕ) :
    ∀ (cands used acc : List String), (∀ u ∈ acc, u ∈ used) →
      ∀ u ∈ (dedup_search_aux per_page used acc cands).1,
        u ∈ (dedup_search_aux per_page used acc cands).2 := by
  intro cands
  induction cands with
  | nil =>
    intro used acc hacc u hu
    simp only [dedup_search_aux, List.mem_reverse] at hu ⊢
    exact hacc u hu
  | cons url rest ih =>
    intro used acc hacc u hu
    rw [dedup_search_aux] at hu ⊢
    by_cases h1 : url ∈ used
    · rw [if_pos h1] at hu ⊢
      exact ih used acc hacc u hu
    · rw [if_neg h1] at hu ⊢
      by_cases h2 : per_page ≤ acc.length + 1
      · rw [if_pos h2] at hu ⊢
        simp only [List.mem_reverse, List.mem_cons] at hu ⊢
        rcases hu with h | h
        · exact Or.inl h
        · exact Or.inr (hacc u h)
      · rw [if_neg h2] at hu ⊢
        refine ih (url :: used) (url :: acc) ?_ u hu
        intro v hv
        rcases List.mem_cons.mp hv with h | h
        · exact h ▸ List.mem_cons_self url used
        · exact List.mem_cons_of_mem url (hacc v h)

theorem search_with_dedup_fresh (per_page : ℕ) (used cands : List String) :
    ∀ u ∈ (search_with_dedup per_page used cands).1, u ∉ used := by
  intro u hu
  rcases dedup_search_aux_fresh per_page cands used [] u hu with h | h
  · exact absurd h (List.not_mem_nil u)
  · exact h

theorem search_with_dedup_recorded (per_page : ℕ) (used cands : List String) :
    ∀ u ∈ (search_with_dedup per_page used cands).1,
      u ∈ (search_with_dedup per_page used cands).2 :=
  dedup_search_aux_recorded per_page cands used [] (by simp)

theorem run_searches_fresh (per_page : ℕ) :
    ∀ (cands : List (List String)) (used : List String),
      ∀ r ∈ (run_searches per_page used cands).1, ∀ u ∈ r, u ∉ used := by
  intro cands
  induction cands with
  | nil =>
    intro used r hr
    simp [run_searches] at hr
  | cons cand rest ih =>
    intro used r hr u hu
    rw [run_searches] at hr
    rcases List.mem_cons.mp hr with h | h
    · exact search_with_dedup_fresh per_page used cand u (h ▸ hu)
    · intro hused
      exact ih (search_with_dedup per_page used cand).2 r h u hu
        (dedup_search_aux_mono per_page cand used [] u hused)

/-- Claim C7: across any sequence of provider searches in one process
lifetime, a URL returned by an earlier search is never returned again (the
used-URL set only grows and filters every search), and a URL never seen before
is never returned by a search whose initial set already contains it; after
`clear_url_cache` the set is empty and a previously used URL can be returned
again. -/
theorem url_dedup_correct (per_page : ℕ) (used0 : List String)
    (cands : List (List String)) :
    List.Pairwise (fun r1 r2 => ∀ u ∈ r2, u ∉ r1)
      (run_searches per_page used0 cands).1 ∧
    (∀ r ∈ (run_searches per_page used0 cands).1, ∀ u ∈ r, u ∉ used0) ∧
    clear_url_cache used0 = [] ∧
    (∀ u : String, (search_with_dedup per_page (clear_url_cache used0) [u]).1 = [u]) := by
  refine ⟨?_, run_searches_fresh per_page cands used0, rfl, ?_⟩
  · induction cands generalizing used0 with
    | nil => simp [run_searches]
    | cons cand rest ih =>
      rw [run_searches]
      refine List.Pairwise.cons ?_ (ih _)
      intro r hr u hu hmem
      exact run_searches_fresh per_page rest (search_with_dedup per_page used0 cand).2 r hr u hu
        (search_with_dedup_recorded per_page used0 cand u hmem)
  · intro u
    rw [clear_url_cache, search_with_dedup, dedup_search_aux]
    rw [if_neg (List.not_mem_nil u)]
    by_cases h2 : per_page ≤ 1
    · rw [if_pos (by simpa using h2)]
      rfl
    · rw [if_neg (by simpa using h2)]
      rfl

/-- Witness for `url_dedup_correct`: with "x" already used, a search over
candidates ["x", "a"] returns exactly ["a"], which was indeed not in the used
set; after a clear, "x" is returned again. -/
theorem url_dedup_correct_witness :
    (["a"] ∈ (run_searches 10 ["x"] [["x", "a"]]).1 ∧ "a" ∈ (["a"] : List String)) ∧
    ("a" : String) ∉ (["x"] : List String) ∧
    (search_with_dedup 10 (clear_url_cache ["x"]) ["x"]).1 = ["x"] := by
  have hmem : ["a"] ∈ (run_searches 10 ["x"] [["x", "a"]]).1 := by decide
  exact ⟨⟨hmem, by decide⟩,
    (url_dedup_correct 10 ["x"] [["x", "a"]]).2.1 ["a"] hmem "a" (by decide),
    (url_dedup_correct 10 ["x"] [["x", "a"]]).2.2.2 "x"⟩

theorem images_fetch_run_spec :
    ∀ (os : List SegmentOutcome) (c : Counters) (idx : ℕ),
      (images_fetch_run c idx os).1.processed =
        c.processed + os.countP (fun o => decide (o = SegmentOutcome.success)) ∧
      (images_fetch_run c idx os).1.mediaReady =
        c.mediaReady + os.countP (fun o => decide (o = SegmentOutcome.success)) ∧
      (images_fetch_run c idx os).2 =
        ((List.range' idx os.length).zip os).filterMap
          (fun p => match p.2 with
            | SegmentOutcome.success => some ⟨p.1, 1⟩
            | SegmentOutcome.noResults => some ⟨p.1, 0⟩
            | SegmentOutcome.searchFailed => some ⟨p.1, 0⟩
            | SegmentOutcome.uploadFailed => none
            | SegmentOutcome.downloadFailed => none) ∧
      List.Sublist ((images_fetch_run c idx os).2.map (fun s => s.index))
        (List.range' idx os.length) := by
  intro os
  induction os with
  | nil =>
    intro c idx
    simp [images_fetch_run]
  | cons o os ih =>
    intro c idx
    cases o with
    | success =>
      obtain ⟨ih1, ih2, ih3, ih4⟩ := ih ⟨c.processed + 1, c.mediaReady + 1⟩ (idx + 1)
      refine ⟨?_, ?_, ?_, ?_⟩
      · simp [images_fetch_run, images_fetch_segment_step, List.countP_cons, ih1]
        omega
      · simp [images_fetch_run, images_fetch_segment_step, List.countP_cons, ih2]
        omega
      · simp [images_fetch_run, images_fetch_segment_step, List.range'_succ, ih3]
      · simp only [images_fetch_run, images_fetch_segment_step, List.length_cons,
          List.range'_succ, List.map_cons]
        exact List.Sublist.cons₂ _ ih4
    | noResults =>
      obtain ⟨ih1, ih2, ih3, ih4⟩ := ih c (idx + 1)
      refine ⟨?_, ?_, ?_, ?_⟩
      · simp [images_fetch_run, images_fetch_segment_step, List.countP_cons, ih1]
      · simp [images_fetch_run, images_fetch_segment_step, List.countP_cons, ih2]
      · simp [images_fetch_run, images_fetch_segment_step, List.range'_succ, ih3]
      · simp only [images_fetch_run, images_fetch_segment_step, List.length_cons,
          List.range'_succ, List.map_cons]
        exact List.Sublist.cons₂ _ ih4
    | searchFailed =>
      obtain ⟨ih1, ih2, ih3, ih4⟩ := ih c (idx + 1)
      refine ⟨?_, ?_, ?_, ?_⟩
      · simp [images_fetch_run, images_fetch_segment_step, List.countP_cons, ih1]
      · simp [images_fetch_run, images_fetch_segment_step, List.countP_cons, ih2]
      · simp [images_fetch_run, images_fetch_segment_step, List.range'_succ, ih3]
      · simp only [images_fetch_run, images_fetch_segment_step, List.length_cons,
          List.range'_succ, List.map_cons]
        exact List.Sublist.cons₂ _ ih4
    | uploadFailed =>
      obtain ⟨ih1, ih2, ih3, ih4⟩ := ih c (idx + 1)
      refine ⟨?_, ?_, ?_, ?_⟩
      · simp [images_fetch_run, images_fetch_segment_step, List.countP_cons, ih1]
      · simp [images_fetch_run, images_fetch_segment_step, List.countP_cons, ih2]
      · simp [images_fetch_run, images_fetch_segment_step, List.range'_succ, ih3]
      · simp only [images_fetch_run, images_fetch_segment_step, List.length_cons,
          List.range'_succ]
        exact List.Sublist.cons _ ih4
    | downloadFailed =>
      obtain ⟨ih1, ih2, ih3, ih4⟩ := ih c (idx + 1)
      refine ⟨?_, ?_, ?_, ?_⟩
      · simp [images_fetch_run, images_fetch_segment_step, List.countP_cons, ih1]
      · simp [images_fetch_run, images_fetch_segment_step, List.countP_cons, ih2]
      · simp [images_fetch_run, images_fetch_segment_step, List.range'_succ, ih3]
      · simp only [images_fetch_run, images_fetch_segment_step, List.length_cons,
          List.range'_succ]
        exact List.Sublist.cons _ ih4

theorem mixed_run_spec :
    ∀ (os : List MixedOutcome) (prev idx : ℕ),
      (mixed_run prev idx os).2.map (fun s => s.index) = List.range' idx os.length ∧
      (mixed_run prev idx os).2.map (fun s => s.mediaCount) =
        os.map (fun o => if o = MixedOutcome.found then 1 else 0) ∧
      (os ≠ [] → (∀ o ∈ os, o ≠ MixedOutcome.escape) →
        (mixed_run prev idx os).1 = idx + os.length) := by
  intro os
  induction os with
  | nil =>
    intro prev idx
    refine ⟨by simp [mixed_run], by simp [mixed_run], fun h _ => absurd rfl h⟩
  | cons o os ih =>
    intro prev idx
    cases o with
    | found =>
      obtain ⟨ih1, ih2, ih3⟩ := ih (idx + 1) (idx + 1)
      refine ⟨?_, ?_, ?_⟩
      · simp [mixed_run, mixed_segment_step, List.range'_succ, ih1]
      · simp [mixed_run, mixed_segment_step, ih2]
      · intro _ hall
        by_cases hos : os = []
        · subst hos
          simp [mixed_run, mixed_segment_step]
        · have h := ih3 hos (fun o' ho' => hall o' (List.mem_cons_of_mem _ ho'))
          simp only [mixed_run, mixed_segment_step] at h ⊢
          rw [h]
          simp [List.length_cons]
          omega
    | missing =>
      obtain ⟨ih1, ih2, ih3⟩ := ih (idx + 1) (idx + 1)
      refine ⟨?_, ?_, ?_⟩
      · simp [mixed_run, mixed_segment_step, List.range'_succ, ih1]
      · simp [mixed_run, mixed_segment_step, ih2]
      · intro _ hall
        by_cases hos : os = []
        · subst hos
          simp [mixed_run, mixed_segment_step]
        · have h := ih3 hos (fun o' ho' => hall o' (List.mem_cons_of_mem _ ho'))
          simp only [mixed_run, mixed_segment_step] at h ⊢
          rw [h]
          simp [List.length_cons]
          omega
    | escape =>
      obtain ⟨ih1, ih2, ih3⟩ := ih prev (idx + 1)
      refine ⟨?_, ?_, ?_⟩
      · simp [mixed_run, mixed_segment_step, List.range'_succ, ih1]
      · simp [mixed_run, mixed_segment_step, ih2]
      · intro _ hall
        exact absurd rfl (hall MixedOutcome.escape (List.mem_cons_self _ _))

/-- Counterexample to claim C8 as stated: in `process_mixed_content`, a single
segment whose media resolution failed (search swallowed, empty media lists)
still advances the stored processed-segment counter from 0 to 1. -/
theorem segment_counters_counterexample :
    (mixed_run 0 0 [MixedOutcome.missing]).1 = 1 ∧
    (mixed_run 0 0 [MixedOutcome.missing]).2 = [⟨0, 0⟩] := by
  decide

/-- Claim C8 (amended): in `process_text_content_for_images_fetching` both
shared counters advance exactly once per successful resolution-and-upload and
are untouched by failures; a content section carrying the media is emitted for
each successful segment and an empty one for each segment with no search
results or a failed search, but segments failing at download or upload are
skipped outright — no section, not even an empty one — so the emitted sections
keep increasing index order with gaps at those segments; in
`process_mixed_content`, however, the processed-segment counter is set to
idx+1 whenever the loop body completes, even when media resolution failed and
the media lists are empty — only a segment whose body raises skips the update
(a blank section is still emitted in order). -/
theorem segment_counters_amended :
    (∀ (c : Counters) (idx : ℕ) (os : List SegmentOutcome),
      (images_fetch_run c idx os).1.processed =
        c.processed + os.countP (fun o => decide (o = SegmentOutcome.success)) ∧
      (images_fetch_run c idx os).1.mediaReady =
        c.mediaReady + os.countP (fun o => decide (o = SegmentOutcome.success)) ∧
      (images_fetch_run c idx os).2 =
        ((List.range' idx os.length).zip os).filterMap
          (fun p => match p.2 with
            | SegmentOutcome.success => some ⟨p.1, 1⟩
            | SegmentOutcome.noResults => some ⟨p.1, 0⟩
            | SegmentOutcome.searchFailed => some ⟨p.1, 0⟩
            | SegmentOutcome.uploadFailed => none
            | SegmentOutcome.downloadFailed => none) ∧
      List.Sublist ((images_fetch_run c idx os).2.map (fun s => s.index))
        (List.range' idx os.length)) ∧
    (∀ (prev idx : ℕ) (os : List MixedOutcome),
      (mixed_run prev idx os).2.map (fun s => s.index) = List.range' idx os.length ∧
      (mixed_run prev idx os).2.map (fun s => s.mediaCount) =
        os.map (fun o => if o = MixedOutcome.found then 1 else 0) ∧
      (os ≠ [] → (∀ o ∈ os, o ≠ MixedOutcome.escape) →
        (mixed_run prev idx os).1 = idx + os.length)) ∧
    (∀ (prev idx : ℕ) (os : List MixedOutcome),
      (mixed_run prev idx (MixedOutcome.escape :: os)).1 =
        (mixed_run prev (idx + 1) os).1) :=
  ⟨fun c idx os => images_fetch_run_spec os c idx,
    fun prev idx os => mixed_run_spec os prev idx,
    fun _ _ _ => rfl⟩

/-- Witness for `segment_counters_amended`: two mixed-content segments, the
second a swallowed failure, still end with the counter at 2. -/
theorem segment_counters_amended_witness :
    (([MixedOutcome.found, MixedOutcome.missing] ≠ []) ∧
      (∀ o ∈ [MixedOutcome.found, MixedOutcome.missing], o ≠ MixedOutcome.escape)) ∧
    (mixed_run 0 0 [MixedOutcome.found, MixedOutcome.missing]).1 = 0 + 2 :=
  ⟨⟨by decide, by decide⟩,
    (segment_counters_amended.2.1 0 0 [MixedOutcome.found, MixedOutcome.missing]).2.2
      (by decide) (by decide)⟩

end ScriptVideo

